import Mathlib

/-!
Shallow embedding of the 2D shadow-casting core of `shadow_casting_pygame.py`.

Coordinates are modelled in `ℚ` (the source computes with IEEE doubles via
numpy; the claims under study speak about the exact algebra of the algorithm,
so the embedding uses exact rational arithmetic).

Transcendental parts of the source (`np.arctan2`, `np.cos`, `np.sin`) cannot
be executed exactly; they are abstracted as parameters of the casting
pipeline: an angle function `f : Point → α` into a linear ordered field
(modelling `angle = np.arctan2(y - point[1], x - point[0])`), a perturbation
`eps : α` (modelling `error = 1e-10`), and a direction function
`dirOf : Point → α → Point` (modelling
`direction = (origin[0] - cos θ, origin[1] - sin θ)`).  Every structural
property claimed of the pipeline is proved for all such parameters.
-/

/-- A point `(x, y)` with rational coordinates. -/
abbrev Point : Type := ℚ × ℚ

/-- A line (or line section): an ordered pair of points, as in the source. -/
abbrev Seg : Type := Point × Point

namespace Shadow

/-- `SCREEN_CORNERS` from the source (`SCREEN_WIDTH = 800`,
`SCREEN_HEIGHT = 600`): TL, TR, BL, BR. -/
def SCREEN_CORNERS : List Point := [(0, 0), (800, 0), (0, 600), (800, 600)]

/-- `SCREEN_EDGES` from the source:
`((TL,TR), (TR,BR), (BR,BL), (BL,TL))` with `SCREEN_WIDTH = 800` and
`SCREEN_HEIGHT = 600`. -/
def SCREEN_EDGES : List Seg :=
  [((0, 0), (800, 0)),
   ((800, 0), (800, 600)),
   ((800, 600), (0, 600)),
   ((0, 600), (0, 0))]

/-- The `denominator` subexpression of `compute_line_line_intersection`:
`(x_1 - x_2)*(y_3 - y_4) - (y_1 - y_2)*(x_3 - x_4)`. -/
def denomOf : Seg → Seg → ℚ
  | ((x1, y1), (x2, y2)), ((x3, y3), (x4, y4)) =>
    (x1 - x2) * (y3 - y4) - (y1 - y2) * (x3 - x4)

/-- The `t` subexpression of `compute_line_line_intersection`:
`((x_1 - x_3)*(y_3 - y_4) - (y_1 - y_3)*(x_3 - x_4)) / denominator`. -/
def tOf : Seg → Seg → ℚ
  | ((x1, y1), (x2, y2)), ((x3, y3), (x4, y4)) =>
    ((x1 - x3) * (y3 - y4) - (y1 - y3) * (x3 - x4)) /
      denomOf ((x1, y1), (x2, y2)) ((x3, y3), (x4, y4))

/-- The `u` subexpression of `compute_line_line_intersection`:
`((x_1 - x_3)*(y_1 - y_2) - (y_1 - y_3)*(x_1 - x_2)) / denominator`. -/
def uOf : Seg → Seg → ℚ
  | ((x1, y1), (x2, y2)), ((x3, y3), (x4, y4)) =>
    ((x1 - x3) * (y1 - y2) - (y1 - y3) * (x1 - x2)) /
      denomOf ((x1, y1), (x2, y2)) ((x3, y3), (x4, y4))

/-- `compute_line_line_intersection(line1, line2)` from the source.
Returns `none` where the source raises `ZeroDivisionError` (zero
determinant), otherwise `some (x, y, t, u)` with
`x = x_1 + t*(x_2 - x_1)` and `y = y_1 + t*(y_2 - y_1)`. -/
def compute_line_line_intersection (line1 line2 : Seg) : Option (ℚ × ℚ × ℚ × ℚ) :=
  if denomOf line1 line2 = 0 then none
  else
    some (line1.1.1 + tOf line1 line2 * (line1.2.1 - line1.1.1),
          line1.1.2 + tOf line1 line2 * (line1.2.2 - line1.1.2),
          tOf line1 line2,
          uOf line1 line2)

lemma clli_eq_none_iff (l1 l2 : Seg) :
    compute_line_line_intersection l1 l2 = none ↔ denomOf l1 l2 = 0 := by
  unfold compute_line_line_intersection
  split <;> simp_all

lemma clli_eq_some_iff (l1 l2 : Seg) (x y t u : ℚ) :
    compute_line_line_intersection l1 l2 = some (x, y, t, u) ↔
      denomOf l1 l2 ≠ 0 ∧ x = l1.1.1 + tOf l1 l2 * (l1.2.1 - l1.1.1) ∧
        y = l1.1.2 + tOf l1 l2 * (l1.2.2 - l1.1.2) ∧ t = tOf l1 l2 ∧ u = uOf l1 l2 := by
  unfold compute_line_line_intersection
  split <;> simp_all [eq_comm]

/-- The returned parameters solve the underlying 2×2 linear system:
the point at parameter `t` on `line1` is the point at parameter `u` on
`line2` (Cramer's rule, exact in `ℚ`). -/
lemma clli_system (l1 l2 : Seg) (x y t u : ℚ)
    (h : compute_line_line_intersection l1 l2 = some (x, y, t, u)) :
    l1.1.1 + t * (l1.2.1 - l1.1.1) = l2.1.1 + u * (l2.2.1 - l2.1.1) ∧
      l1.1.2 + t * (l1.2.2 - l1.1.2) = l2.1.2 + u * (l2.2.2 - l2.1.2) := by
  obtain ⟨⟨x1, y1⟩, ⟨x2, y2⟩⟩ := l1
  obtain ⟨⟨x3, y3⟩, ⟨x4, y4⟩⟩ := l2
  rw [clli_eq_some_iff] at h
  obtain ⟨hne, hx, hy, ht, hu⟩ := h
  subst ht hu
  simp only [denomOf, tOf, uOf] at hne ⊢
  constructor <;> (field_simp; ring)

/-- Swapping the two argument lines negates the determinant and swaps the
roles of `t` and `u`, leaving the intersection point unchanged. -/
lemma clli_swap (l1 l2 : Seg) (x y t u : ℚ)
    (h : compute_line_line_intersection l1 l2 = some (x, y, t, u)) :
    compute_line_line_intersection l2 l1 = some (x, y, u, t) := by
  have hsys := clli_system l1 l2 x y t u h
  obtain ⟨⟨x1, y1⟩, ⟨x2, y2⟩⟩ := l1
  obtain ⟨⟨x3, y3⟩, ⟨x4, y4⟩⟩ := l2
  rw [clli_eq_some_iff] at h ⊢
  obtain ⟨hne, hx, hy, ht, hu⟩ := h
  have hdenom : denomOf ((x3, y3), (x4, y4)) ((x1, y1), (x2, y2)) =
      -denomOf ((x1, y1), (x2, y2)) ((x3, y3), (x4, y4)) := by
    simp only [denomOf]; ring
  have hne2 : denomOf ((x3, y3), (x4, y4)) ((x1, y1), (x2, y2)) ≠ 0 := by
    rw [hdenom]; exact neg_ne_zero.mpr hne
  have ht2 : tOf ((x3, y3), (x4, y4)) ((x1, y1), (x2, y2)) = u := by
    rw [hu]
    simp only [tOf, uOf, hdenom, denomOf]
    rw [div_eq_div_iff (by simpa [denomOf] using hne2) (by simpa [denomOf] using hne)]
    ring
  have hu2 : uOf ((x3, y3), (x4, y4)) ((x1, y1), (x2, y2)) = t := by
    rw [ht]
    simp only [uOf, tOf, hdenom, denomOf]
    rw [div_eq_div_iff (by simpa [denomOf] using hne2) (by simpa [denomOf] using hne)]
    ring
  refine ⟨hne2, ?_, ?_, ht2.symm, hu2.symm⟩
  · rw [hx, ht2, ← ht]
    simpa using hsys.1
  · rw [hy, ht2, ← ht]
    simpa using hsys.2

/-- `Ray.compute_ray_section_intersection(self, line)` from the source.
The ray is the line `(origin, direction)`; the source raises
`ValueError` (modelled as `none`) when `not 0 < u < 1` or when `t < 0`,
and lets the kernel's `ZeroDivisionError` (modelled as `none`) through. -/
def compute_ray_section_intersection (origin direction : Point) (line : Seg) :
    Option (ℚ × ℚ × ℚ) :=
  match compute_line_line_intersection (origin, direction) line with
  | none => none
  | some (x, y, t, u) =>
    if 0 < u ∧ u < 1 then (if t < 0 then none else some (x, y, t)) else none

lemma crsi_of_clli_none (o d : Point) (l : Seg)
    (hc : compute_line_line_intersection (o, d) l = none) :
    compute_ray_section_intersection o d l = none := by
  unfold compute_ray_section_intersection
  rw [hc]

lemma crsi_of_clli_some (o d : Point) (l : Seg) (x y t u : ℚ)
    (hc : compute_line_line_intersection (o, d) l = some (x, y, t, u)) :
    compute_ray_section_intersection o d l =
      if 0 < u ∧ u < 1 then (if t < 0 then none else some (x, y, t)) else none := by
  unfold compute_ray_section_intersection
  rw [hc]

lemma crsi_eq_none_iff (o d : Point) (l : Seg) :
    compute_ray_section_intersection o d l = none ↔
      (denomOf (o, d) l = 0 ∨
        ∃ x y t u, compute_line_line_intersection (o, d) l = some (x, y, t, u) ∧
          (¬(0 < u ∧ u < 1) ∨ t < 0)) := by
  rcases hc : compute_line_line_intersection (o, d) l with - | ⟨x, y, t, u⟩
  · rw [crsi_of_clli_none o d l hc]
    rw [clli_eq_none_iff] at hc
    simp [hc]
  · rw [crsi_of_clli_some o d l x y t u hc]
    have hne : ¬ denomOf (o, d) l = 0 := by
      intro h0
      rw [← clli_eq_none_iff (o, d) l] at h0
      simp [h0] at hc
    constructor
    · intro h
      split_ifs at h with h1 h2
      · exact Or.inr ⟨x, y, t, u, rfl, Or.inr h2⟩
      · exact Or.inr ⟨x, y, t, u, rfl, Or.inl h1⟩
    · rintro (h0 | ⟨x2, y2, t2, u2, heq, hbad⟩)
      · exact absurd h0 hne
      · obtain ⟨hx, hy, ht, hu⟩ : x = x2 ∧ y = y2 ∧ t = t2 ∧ u = u2 := by
          simpa using heq
        subst hx hy ht hu
        rcases hbad with hbad | hbad
        · simp [hbad]
        · split_ifs <;> simp_all

lemma crsi_eq_some_iff (o d : Point) (l : Seg) (x y t : ℚ) :
    compute_ray_section_intersection o d l = some (x, y, t) ↔
      ∃ u, compute_line_line_intersection (o, d) l = some (x, y, t, u) ∧
        (0 < u ∧ u < 1) ∧ 0 ≤ t := by
  rcases hc : compute_line_line_intersection (o, d) l with - | ⟨x2, y2, t2, u2⟩
  · rw [crsi_of_clli_none o d l hc]
    simp
  · rw [crsi_of_clli_some o d l x2 y2 t2 u2 hc]
    constructor
    · intro h
      split_ifs at h with h1 h2
      obtain ⟨hx, hy, ht⟩ : x2 = x ∧ y2 = y ∧ t2 = t := by simpa using h
      subst hx hy ht
      exact ⟨u2, rfl, h1, not_lt.mp h2⟩
    · rintro ⟨u, heq, hu, ht⟩
      obtain ⟨hx, hy, ht2, hu2⟩ : x2 = x ∧ y2 = y ∧ t2 = t ∧ u2 = u := by
        simpa using heq
      subst hx hy ht2 hu2
      simp [hu, not_lt.mpr ht]

/-- One iteration of the `for` loop of `Ray.get_closest_intersection`:
given the current `(closest, intersection)` state (`none` models the
initial `closest = np.Infinity, intersection = None` state), process one
line.  A candidate with `distance < closest` replaces the state. -/
def stepOf (o d : Point) (l : Seg) (acc : Option (ℚ × Point)) : Option (ℚ × Point) :=
  match compute_ray_section_intersection o d l, acc with
  | none, a => a
  | some (x, y, t), none => some (t, (x, y))
  | some (x, y, t), some (c, p) => if t < c then some (t, (x, y)) else some (c, p)

/-- The `for` loop of `Ray.get_closest_intersection`, folding `stepOf`
over the lines. -/
def closestAux (o d : Point) : List Seg → Option (ℚ × Point) → Option (ℚ × Point)
  | [], acc => acc
  | l :: ls, acc => closestAux o d ls (stepOf o d l acc)

/-- `Ray.get_closest_intersection(self, lines)` from the source: the point
of the accepted candidate with smallest `t`, or `none` if every line is
skipped. -/
def get_closest_intersection (o d : Point) (lines : List Seg) : Option Point :=
  (closestAux o d lines none).map (fun s => s.2)

lemma stepOf_none (o d : Point) (l : Seg) (acc : Option (ℚ × Point))
    (hc : compute_ray_section_intersection o d l = none) :
    stepOf o d l acc = acc := by
  unfold stepOf
  rcases acc with - | ⟨c, p⟩ <;> rw [hc]

lemma stepOf_some_none (o d : Point) (l : Seg) (x y t : ℚ)
    (hc : compute_ray_section_intersection o d l = some (x, y, t)) :
    stepOf o d l none = some (t, (x, y)) := by
  unfold stepOf
  rw [hc]

lemma stepOf_some_some (o d : Point) (l : Seg) (x y t c : ℚ) (p : Point)
    (hc : compute_ray_section_intersection o d l = some (x, y, t)) :
    stepOf o d l (some (c, p)) = if t < c then some (t, (x, y)) else some (c, p) := by
  unfold stepOf
  rw [hc]

lemma closestAux_eq_none_iff (o d : Point) (ls : List Seg) (acc : Option (ℚ × Point)) :
    closestAux o d ls acc = none ↔
      acc = none ∧ ∀ l ∈ ls, compute_ray_section_intersection o d l = none := by
  induction ls generalizing acc with
  | nil => simp [closestAux]
  | cons l ls ih =>
    rw [closestAux]
    rcases hc : compute_ray_section_intersection o d l with - | ⟨x, y, t⟩
    · rw [stepOf_none o d l acc hc, ih]
      simp [List.forall_mem_cons, hc]
    · rcases acc with - | ⟨c, p⟩
      · rw [stepOf_some_none o d l x y t hc]
        simp [ih, List.forall_mem_cons, hc]
      · rw [stepOf_some_some o d l x y t c p hc]
        split_ifs <;> simp [ih, List.forall_mem_cons, hc]

lemma closestAux_eq_some (o d : Point) (ls : List Seg) (acc : Option (ℚ × Point))
    (t : ℚ) (p : Point) (h : closestAux o d ls acc = some (t, p)) :
    (acc = some (t, p) ∨
      ∃ l ∈ ls, compute_ray_section_intersection o d l = some (p.1, p.2, t)) ∧
    (∀ l ∈ ls, ∀ x y t2, compute_ray_section_intersection o d l = some (x, y, t2) → t ≤ t2) ∧
    (∀ c q, acc = some (c, q) → t ≤ c) := by
  induction ls generalizing acc with
  | nil =>
    simp only [closestAux] at h
    subst h
    exact ⟨Or.inl rfl, by simp, fun c q hc => by simp_all⟩
  | cons l ls ih =>
    rw [closestAux] at h
    rcases hc : compute_ray_section_intersection o d l with - | ⟨x, y, t0⟩
    · rw [stepOf_none o d l acc hc] at h
      obtain ⟨h1, h2, h3⟩ := ih acc h
      refine ⟨?_, ?_, h3⟩
      · rcases h1 with h1 | ⟨l2, hl2, hs⟩
        · exact Or.inl h1
        · exact Or.inr ⟨l2, List.mem_cons_of_mem _ hl2, hs⟩
      · intro l2 hl2 x y t2 hs
        rcases List.mem_cons.mp hl2 with rfl | hl2
        · rw [hc] at hs
          exact absurd hs (by simp)
        · exact h2 l2 hl2 x y t2 hs
    · rcases acc with - | ⟨c, q⟩
      · rw [stepOf_some_none o d l x y t0 hc] at h
        obtain ⟨h1, h2, h3⟩ := ih (some (t0, (x, y))) h
        have hle : t ≤ t0 := h3 t0 (x, y) rfl
        refine ⟨?_, ?_, by simp⟩
        · rcases h1 with h1 | ⟨l2, hl2, hs⟩
          · obtain ⟨rfl, rfl⟩ : t0 = t ∧ (x, y) = p := by simpa using h1
            exact Or.inr ⟨l, List.mem_cons_self _ _, by simpa using hc⟩
          · exact Or.inr ⟨l2, List.mem_cons_of_mem _ hl2, hs⟩
        · intro l2 hl2 x2 y2 t2 hs
          rcases List.mem_cons.mp hl2 with rfl | hl2
          · rw [hc] at hs
            obtain ⟨-, -, rfl⟩ : x = x2 ∧ y = y2 ∧ t0 = t2 := by simpa using hs
            exact hle
          · exact h2 l2 hl2 x2 y2 t2 hs
      · rw [stepOf_some_some o d l x y t0 c q hc] at h
        split_ifs at h with hlt
        · obtain ⟨h1, h2, h3⟩ := ih (some (t0, (x, y))) h
          have hle : t ≤ t0 := h3 t0 (x, y) rfl
          refine ⟨?_, ?_, ?_⟩
          · rcases h1 with h1 | ⟨l2, hl2, hs⟩
            · obtain ⟨rfl, rfl⟩ : t0 = t ∧ (x, y) = p := by simpa using h1
              exact Or.inr ⟨l, List.mem_cons_self _ _, by simpa using hc⟩
            · exact Or.inr ⟨l2, List.mem_cons_of_mem _ hl2, hs⟩
          · intro l2 hl2 x2 y2 t2 hs
            rcases List.mem_cons.mp hl2 with rfl | hl2
            · rw [hc] at hs
              obtain ⟨-, -, rfl⟩ : x = x2 ∧ y = y2 ∧ t0 = t2 := by simpa using hs
              exact hle
            · exact h2 l2 hl2 x2 y2 t2 hs
          · intro c2 q2 hacc
            obtain ⟨rfl, rfl⟩ : c = c2 ∧ q = q2 := by simpa using hacc
            exact le_trans hle (le_of_lt hlt)
        · obtain ⟨h1, h2, h3⟩ := ih (some (c, q)) h
          have hle : t ≤ c := h3 c q rfl
          refine ⟨?_, ?_, ?_⟩
          · rcases h1 with h1 | ⟨l2, hl2, hs⟩
            · exact Or.inl h1
            · exact Or.inr ⟨l2, List.mem_cons_of_mem _ hl2, hs⟩
          · intro l2 hl2 x2 y2 t2 hs
            rcases List.mem_cons.mp hl2 with rfl | hl2
            · rw [hc] at hs
              obtain ⟨-, -, rfl⟩ : x = x2 ∧ y = y2 ∧ t0 = t2 := by simpa using hs
              exact le_trans hle (not_lt.mp hlt)
            · exact h2 l2 hl2 x2 y2 t2 hs
          · intro c2 q2 hacc
            obtain ⟨rfl, rfl⟩ : c = c2 ∧ q = q2 := by simpa using hacc
            exact hle

lemma gci_eq_none_iff (o d : Point) (lines : List Seg) :
    get_closest_intersection o d lines = none ↔
      ∀ l ∈ lines, compute_ray_section_intersection o d l = none := by
  unfold get_closest_intersection
  rw [Option.map_eq_none', closestAux_eq_none_iff]
  simp

lemma gci_eq_some (o d : Point) (lines : List Seg) (p : Point)
    (h : get_closest_intersection o d lines = some p) :
    ∃ l ∈ lines, ∃ t, compute_ray_section_intersection o d l = some (p.1, p.2, t) ∧
      ∀ l2 ∈ lines, ∀ x y t2,
        compute_ray_section_intersection o d l2 = some (x, y, t2) → t ≤ t2 := by
  unfold get_closest_intersection at h
  rcases ha : closestAux o d lines none with - | ⟨t, q⟩
  · rw [ha] at h; simp at h
  · rw [ha] at h
    have hqp : q = p := by simpa using h
    subst hqp
    obtain ⟨h1, h2, -⟩ := closestAux_eq_some o d lines none t q ha
    rcases h1 with h1 | ⟨l, hl, hs⟩
    · simp at h1
    · exact ⟨l, hl, t, hs, h2⟩

/-- The per-polygon body of the loop of `Map._get_lines`:
`len(line) > 2` appends the consecutive pairs `zip(line, line[1:])`,
otherwise the source appends `line` itself (which for a 2-point polygon is
the single segment `(line[0], line[1])`; for fewer than 2 points the
source appends an ill-formed tuple that would crash any later use, so the
embedding emits no segment there and every claim concerns polygons of at
least 2 points). -/
def polyToSegs (poly : List Point) : List Seg :=
  if 2 < poly.length then poly.zip poly.tail
  else
    match poly with
    | [p1, p2] => [(p1, p2)]
    | _ => []

/-- `Map._get_lines(self, polygons)` from the source: the screen edges
followed by each polygon's segments. -/
def get_lines (polygons : List (List Point)) : List Seg :=
  SCREEN_EDGES ++ polygons.flatMap polyToSegs

/-- One pass `for line2 in lines[i:]` of `Map._get_lines_intersections`,
with `line1 = lines[i]`: the intersection points of `line1` with every
line from `line1` (itself included) onwards whose `t` and `u` both lie
strictly inside `(0, 1)`. -/
def pairIntsRow (line1 : Seg) (rest : List Seg) : List Point :=
  rest.filterMap fun line2 =>
    match compute_line_line_intersection line1 line2 with
    | none => none
    | some (x, y, t, u) =>
      if 0 < t ∧ t < 1 ∧ 0 < u ∧ u < 1 then some (x, y) else none

/-- The double loop of `Map._get_lines_intersections`: `line1` ranges over
`lines` and `line2` over `lines[i:]` (the suffix starting at `line1`). -/
def pairInts : List Seg → List Point
  | [] => []
  | l :: ls => pairIntsRow l (l :: ls) ++ pairInts ls

/-- `Map._get_lines_intersections(self, lines)` from the source; the
`set(...)` applied to the collected list is modelled by `List.dedup`
(same membership, duplicates removed). -/
def get_lines_intersections (lines : List Seg) : List Point :=
  (pairInts lines).dedup

/-- `Map._get_ray_targets(self, lines)` from the source: the list
`[point for line in lines for point in line]` of all endpoints (with one
entry per segment end, so shared endpoints repeat), followed by the
pairwise intersections. -/
def get_ray_targets (lines : List Seg) : List Point :=
  (lines.flatMap fun l => [l.1, l.2]) ++ get_lines_intersections lines

/-- A line paired with itself has zero determinant, so the kernel reports
Parallel: the self-pairs of the double loop contribute nothing. -/
lemma clli_self (l : Seg) : compute_line_line_intersection l l = none := by
  rw [clli_eq_none_iff]
  obtain ⟨⟨x1, y1⟩, ⟨x2, y2⟩⟩ := l
  simp only [denomOf]
  ring

/-- Membership in one row of the double loop. -/
lemma mem_pairIntsRow (l1 : Seg) (rest : List Seg) (p : Point) :
    p ∈ pairIntsRow l1 rest ↔
      ∃ l2 ∈ rest, ∃ t u, compute_line_line_intersection l1 l2 = some (p.1, p.2, t, u) ∧
        0 < t ∧ t < 1 ∧ 0 < u ∧ u < 1 := by
  unfold pairIntsRow
  rw [List.mem_filterMap]
  constructor
  · rintro ⟨l2, hl2, hsome⟩
    rcases hc : compute_line_line_intersection l1 l2 with - | ⟨x, y, t, u⟩ <;> rw [hc] at hsome
    · simp at hsome
    · have hsome2 : (if 0 < t ∧ t < 1 ∧ 0 < u ∧ u < 1 then some (x, y) else none) =
          some p := hsome
      split_ifs at hsome2 with hcond
      obtain rfl : (x, y) = p := by simpa using hsome2
      exact ⟨l2, hl2, t, u, hc, hcond.1, hcond.2.1, hcond.2.2.1, hcond.2.2.2⟩
  · rintro ⟨l2, hl2, t, u, hc, ht0, ht1, hu0, hu1⟩
    refine ⟨l2, hl2, ?_⟩
    rw [hc]
    simp [ht0, ht1, hu0, hu1]

/-- The pair `(line1, line2)` with both members in `lines` is covered by
the double loop (in one order or the other; by `clli_swap` the recorded
point is the same either way). -/
lemma mem_pairInts_of_pair (lines : List Seg) (l1 l2 : Seg) (p : Point)
    (h1 : l1 ∈ lines) (h2 : l2 ∈ lines)
    (hgood : ∃ t u, compute_line_line_intersection l1 l2 = some (p.1, p.2, t, u) ∧
      0 < t ∧ t < 1 ∧ 0 < u ∧ u < 1) :
    p ∈ pairInts lines := by
  induction lines with
  | nil => simp at h1
  | cons l ls ih =>
    unfold pairInts
    rw [List.mem_append]
    rcases List.mem_cons.mp h1 with rfl | h1s
    · left
      rw [mem_pairIntsRow]
      exact ⟨l2, h2, hgood⟩
    · rcases List.mem_cons.mp h2 with rfl | h2s
      · left
        rw [mem_pairIntsRow]
        obtain ⟨t, u, hc, ht0, ht1, hu0, hu1⟩ := hgood
        exact ⟨l1, List.mem_cons_of_mem _ h1s, u, t,
          clli_swap l1 l2 p.1 p.2 t u hc, hu0, hu1, ht0, ht1⟩
      · exact Or.inr (ih h1s h2s)

/-- Conversely, every point collected by the double loop comes from some
pair of lines of the list. -/
lemma pair_of_mem_pairInts (lines : List Seg) (p : Point) (h : p ∈ pairInts lines) :
    ∃ l1 ∈ lines, ∃ l2 ∈ lines, ∃ t u,
      compute_line_line_intersection l1 l2 = some (p.1, p.2, t, u) ∧
        0 < t ∧ t < 1 ∧ 0 < u ∧ u < 1 := by
  induction lines with
  | nil => simp [pairInts] at h
  | cons l ls ih =>
    unfold pairInts at h
    rcases List.mem_append.mp h with h | h
    · rw [mem_pairIntsRow] at h
      obtain ⟨l2, hl2, t, u, hc, hcond⟩ := h
      exact ⟨l, List.mem_cons_self _ _, l2, hl2, t, u, hc, hcond⟩
    · obtain ⟨l1, hl1, l2, hl2, rest⟩ := ih h
      exact ⟨l1, List.mem_cons_of_mem _ hl1, l2, List.mem_cons_of_mem _ hl2, rest⟩

lemma mem_gli_iff (lines : List Seg) (p : Point) :
    p ∈ get_lines_intersections lines ↔
      ∃ l1 ∈ lines, ∃ l2 ∈ lines, ∃ t u,
        compute_line_line_intersection l1 l2 = some (p.1, p.2, t, u) ∧
          0 < t ∧ t < 1 ∧ 0 < u ∧ u < 1 := by
  unfold get_lines_intersections
  rw [List.mem_dedup]
  constructor
  · exact pair_of_mem_pairInts lines p
  · rintro ⟨l1, hl1, l2, hl2, t, u, hc, hcond⟩
    exact mem_pairInts_of_pair lines l1 l2 p hl1 hl2 ⟨t, u, hc, hcond⟩

lemma mem_grt_iff (lines : List Seg) (p : Point) :
    p ∈ get_ray_targets lines ↔
      (∃ l ∈ lines, p = l.1 ∨ p = l.2) ∨ p ∈ get_lines_intersections lines := by
  unfold get_ray_targets
  rw [List.mem_append, List.mem_flatMap]
  constructor
  · rintro (⟨l, hl, hp⟩ | h)
    · exact Or.inl ⟨l, hl, by simpa [eq_comm] using hp⟩
    · exact Or.inr h
  · rintro (⟨l, hl, hp⟩ | h)
    · exact Or.inl ⟨l, hl, by simpa [eq_comm] using hp⟩
    · exact Or.inr h

/-- The Python exception kinds reachable from
`ShadowCaster.update_triangles`. -/
inductive PyError : Type
  | typeError
  | assertionError
  | indexError
deriving DecidableEq

/-- `ShadowCaster.cast_rays(self, points)` from the source, reduced to the
sorted list of angles of the produced rays (each produced `Ray` stores
the caster position together with one of these angles).
`points = set(points)` is modelled by `List.dedup`; the transcendental
`angle = np.arctan2(y - point[1], x - point[0])` is the abstract
parameter `f` (the caster position is folded into `f`);
`error = 1e-10` is the abstract parameter `eps`; `angles.sort()` is a
stable sort by `≤`. -/
def cast_rays_angles {α : Type} [LinearOrderedField α] (f : Point → α) (eps : α)
    (points : List Point) : List α :=
  List.insertionSort (fun a b => a ≤ b)
    (points.dedup.flatMap fun point => [f point - eps, f point + eps])

/-- `ShadowCaster._get_rays_intersections(self, lines)` from the source:
the closest intersection of each ray `(origin, direction)` in order;
the source raises `TypeError` as soon as some ray has none. -/
def get_rays_intersections : List (Point × Point) → List Seg → Except PyError (List Point)
  | [], _ => .ok []
  | r :: rs, lines =>
    match get_closest_intersection r.1 r.2 lines with
    | none => .error .typeError
    | some p =>
      match get_rays_intersections rs lines with
      | .error e => .error e
      | .ok ps => .ok (p :: ps)

/-- `ShadowCaster.update_triangles(self, lines, targets)` from the source:
cast the rays, resolve every ray (`TypeError` if one fails), check
`assert len(self.rays) == len(vertices)`, run
`vertices.append(vertices[0])` (`IndexError` on an empty list), and pair
consecutive vertices with the caster position. -/
def update_triangles {α : Type} [LinearOrderedField α] (f : Point → α)
    (dirOf : Point → α → Point) (eps : α) (position : Point)
    (lines : List Seg) (targets : List Point) :
    Except PyError (List (Point × Point × Point)) :=
  let angles := cast_rays_angles f eps targets
  let rays := angles.map fun a => (position, dirOf position a)
  match get_rays_intersections rays lines with
  | .error e => .error e
  | .ok vertices =>
    if rays.length = vertices.length then
      match vertices with
      | [] => .error .indexError
      | v0 :: _ =>
        let vs := vertices ++ [v0]
        .ok ((vs.zip vs.tail).map fun vv => (position, vv.1, vv.2))
    else .error .assertionError

lemma gri_cons_none (r : Point × Point) (rs : List (Point × Point)) (lines : List Seg)
    (hc : get_closest_intersection r.1 r.2 lines = none) :
    get_rays_intersections (r :: rs) lines = .error .typeError := by
  rw [get_rays_intersections, hc]

lemma gri_cons_some_error (r : Point × Point) (rs : List (Point × Point)) (lines : List Seg)
    (p : Point) (e : PyError) (hc : get_closest_intersection r.1 r.2 lines = some p)
    (hrs : get_rays_intersections rs lines = .error e) :
    get_rays_intersections (r :: rs) lines = .error e := by
  rw [get_rays_intersections, hc, hrs]

lemma gri_cons_some_ok (r : Point × Point) (rs : List (Point × Point)) (lines : List Seg)
    (p : Point) (ps : List Point) (hc : get_closest_intersection r.1 r.2 lines = some p)
    (hrs : get_rays_intersections rs lines = .ok ps) :
    get_rays_intersections (r :: rs) lines = .ok (p :: ps) := by
  rw [get_rays_intersections, hc, hrs]

lemma gri_error_iff (rays : List (Point × Point)) (lines : List Seg) :
    (∃ e, get_rays_intersections rays lines = .error e) ↔
      ∃ r ∈ rays, get_closest_intersection r.1 r.2 lines = none := by
  induction rays with
  | nil => simp [get_rays_intersections]
  | cons r rs ih =>
    rcases hc : get_closest_intersection r.1 r.2 lines with - | ⟨p⟩
    · rw [gri_cons_none r rs lines hc]
      exact ⟨fun _ => ⟨r, List.mem_cons_self _ _, hc⟩, fun _ => ⟨.typeError, rfl⟩⟩
    · rcases hrs : get_rays_intersections rs lines with e | ps
      · rw [gri_cons_some_error r rs lines p e hc hrs]
        constructor
        · rintro -
          obtain ⟨r2, hr2, hnone⟩ := ih.mp ⟨e, hrs⟩
          exact ⟨r2, List.mem_cons_of_mem _ hr2, hnone⟩
        · rintro -
          exact ⟨e, rfl⟩
      · rw [gri_cons_some_ok r rs lines p ps hc hrs]
        constructor
        · rintro ⟨e, he⟩
          simp at he
        · rintro ⟨r2, hr2, hnone⟩
          rcases List.mem_cons.mp hr2 with rfl | hr2s
          · rw [hc] at hnone
            simp at hnone
          · obtain ⟨e, he⟩ := ih.mpr ⟨r2, hr2s, hnone⟩
            rw [he] at hrs
            simp at hrs

lemma gri_ok_length (rays : List (Point × Point)) (lines : List Seg) (vs : List Point)
    (h : get_rays_intersections rays lines = .ok vs) : vs.length = rays.length := by
  induction rays generalizing vs with
  | nil =>
    obtain rfl : vs = [] := by simpa [get_rays_intersections, eq_comm] using h
    rfl
  | cons r rs ih =>
    rcases hc : get_closest_intersection r.1 r.2 lines with - | ⟨p⟩
    · rw [gri_cons_none r rs lines hc] at h
      simp at h
    · rcases hrs : get_rays_intersections rs lines with e | ps
      · rw [gri_cons_some_error r rs lines p e hc hrs] at h
        simp at h
      · rw [gri_cons_some_ok r rs lines p ps hc hrs] at h
        obtain rfl : vs = p :: ps := by simpa [eq_comm] using h
        simpa using ih ps hrs

lemma flatMap_pair_length {α : Type} (g h : Point → α) (l : List Point) :
    (l.flatMap fun p => [g p, h p]).length = 2 * l.length := by
  induction l with
  | nil => rfl
  | cons p ps ih =>
    simp only [List.flatMap_cons, List.length_append, List.length_cons, ih]
    simp [Nat.mul_add, Nat.add_comm]

lemma cra_length {α : Type} [LinearOrderedField α] (f : Point → α) (eps : α)
    (points : List Point) :
    (cast_rays_angles f eps points).length = 2 * points.dedup.length := by
  unfold cast_rays_angles
  rw [(List.perm_insertionSort _ _).length_eq]
  exact flatMap_pair_length _ _ _

lemma cra_eq_nil_iff {α : Type} [LinearOrderedField α] (f : Point → α) (eps : α)
    (points : List Point) :
    cast_rays_angles f eps points = [] ↔ points = [] := by
  rw [← List.length_eq_zero, cra_length]
  simp [List.length_eq_zero, List.dedup_eq_nil]

lemma ut_error_iff {α : Type} [LinearOrderedField α] (f : Point → α)
    (dirOf : Point → α → Point) (eps : α) (position : Point)
    (lines : List Seg) (targets : List Point) :
    (∃ e, update_triangles f dirOf eps position lines targets = .error e) ↔
      (targets = [] ∨
        ∃ a ∈ cast_rays_angles f eps targets,
          get_closest_intersection position (dirOf position a) lines = none) := by
  unfold update_triangles
  rcases hg : get_rays_intersections
      ((cast_rays_angles f eps targets).map fun a => (position, dirOf position a))
      lines with e | vertices
  · simp only [hg]
    constructor
    · rintro -
      obtain ⟨r, hr, hnone⟩ := (gri_error_iff _ _).mp ⟨e, hg⟩
      obtain ⟨a, ha, rfl⟩ := List.mem_map.mp hr
      exact Or.inr ⟨a, ha, hnone⟩
    · rintro -
      exact ⟨e, rfl⟩
  · have hlen : vertices.length =
        ((cast_rays_angles f eps targets).map fun a => (position, dirOf position a)).length :=
      gri_ok_length _ _ _ hg
    simp only [hg, if_pos hlen.symm]
    rcases hv : vertices with - | ⟨v0, vrest⟩
    · subst hv
      constructor
      · rintro -
        left
        rw [← cra_eq_nil_iff f eps targets, ← List.length_eq_zero]
        have := hlen.symm
        simpa using this
      · rintro -
        exact ⟨.indexError, rfl⟩
    · constructor
      · rintro ⟨e, he⟩
        simp at he
      · rintro (htgt | ⟨a, ha, hnone⟩)
        · subst htgt
          rw [show cast_rays_angles f eps ([] : List Point) = [] from
            (cra_eq_nil_iff f eps []).mpr rfl] at hlen
          simp [hv] at hlen
        · have hmem : (position, dirOf position a) ∈
              (cast_rays_angles f eps targets).map fun a2 => (position, dirOf position a2) :=
            List.mem_map.mpr ⟨a, ha, rfl⟩
          obtain ⟨e, he⟩ := (gri_error_iff _ _).mpr ⟨(position, dirOf position a), hmem, hnone⟩
          rw [he] at hg
          simp at hg

/-- `q` lies on the ray with origin `o` through direction point `d`
(parameter `t ≥ 0` of the parameterization used by the kernel). -/
def onRay (o d q : Point) : Prop :=
  ∃ t : ℚ, 0 ≤ t ∧ q = (o.1 + t * (d.1 - o.1), o.2 + t * (d.2 - o.2))

lemma gci_ne_none (o d : Point) (lines : List Seg)
    (h : ∃ l ∈ lines, compute_ray_section_intersection o d l ≠ none) :
    ∃ p, get_closest_intersection o d lines = some p := by
  obtain ⟨l, hl, hne⟩ := h
  rcases hg : get_closest_intersection o d lines with - | ⟨p⟩
  · rw [gci_eq_none_iff] at hg
    exact absurd (hg l hl) hne
  · exact ⟨p, rfl⟩

/-- A segment qualifies for the ray when the determinant is a positive
value `A`, `t = Nt / A` with `Nt ≥ 0`, and `u = Nu / A` with
`0 < Nu < A`. -/
lemma crsi_ne_none_of_div (o d : Point) (E : Seg) (A Nt Nu : ℚ)
    (hA : 0 < A) (hden : denomOf (o, d) E = A)
    (htv : tOf (o, d) E = Nt / A) (huv : uOf (o, d) E = Nu / A)
    (hNt : 0 ≤ Nt) (hNu0 : 0 < Nu) (hNu1 : Nu < A) :
    compute_ray_section_intersection o d E ≠ none := by
  intro h
  rw [crsi_eq_none_iff] at h
  rcases h with h0 | ⟨x, y, t, u, hc, hbad⟩
  · rw [hden] at h0
    exact (ne_of_gt hA) h0
  · rw [clli_eq_some_iff] at hc
    obtain ⟨-, -, -, ht, hu⟩ := hc
    subst ht hu
    rcases hbad with hbad | hbad
    · refine hbad ⟨?_, ?_⟩
      · rw [huv]
        exact div_pos hNu0 hA
      · rw [huv]
        exact (div_lt_one hA).mpr hNu1
    · rw [htv] at hbad
      exact absurd hbad (not_lt.mpr (div_nonneg hNt (le_of_lt hA)))

lemma top_edge_q (ox oy c s : ℚ) (hs : 0 < s) (hoy : 0 ≤ oy)
    (h0 : 0 < ox * s - oy * c) (h1 : ox * s - oy * c < 800 * s) :
    compute_ray_section_intersection (ox, oy) (ox - c, oy - s) ((0, 0), (800, 0)) ≠ none := by
  have hA : (0 : ℚ) < 800 * s := by linarith
  have hAne : (800 : ℚ) * s ≠ 0 := ne_of_gt hA
  have hden : denomOf ((ox, oy), (ox - c, oy - s)) ((0, 0), (800, 0)) = 800 * s := by
    simp only [denomOf]
    ring
  have htv : tOf ((ox, oy), (ox - c, oy - s)) ((0, 0), (800, 0)) = (800 * oy) / (800 * s) := by
    simp only [tOf]
    rw [hden, div_eq_div_iff hAne hAne]
    ring
  have huv : uOf ((ox, oy), (ox - c, oy - s)) ((0, 0), (800, 0)) =
      (ox * s - oy * c) / (800 * s) := by
    simp only [uOf]
    rw [hden, div_eq_div_iff hAne hAne]
    ring
  exact crsi_ne_none_of_div _ _ _ _ _ _ hA hden htv huv (by positivity) h0 h1

lemma bottom_edge_q (ox oy c s : ℚ) (hs : s < 0) (hoy : oy ≤ 600)
    (h0 : 0 < (ox - 800) * s - (oy - 600) * c)
    (h1 : (ox - 800) * s - (oy - 600) * c < 800 * (-s)) :
    compute_ray_section_intersection (ox, oy) (ox - c, oy - s) ((800, 600), (0, 600)) ≠ none := by
  have hA : (0 : ℚ) < 800 * (-s) := by linarith
  have hAne : (800 : ℚ) * (-s) ≠ 0 := ne_of_gt hA
  have hden : denomOf ((ox, oy), (ox - c, oy - s)) ((800, 600), (0, 600)) = 800 * (-s) := by
    simp only [denomOf]
    ring
  have htv : tOf ((ox, oy), (ox - c, oy - s)) ((800, 600), (0, 600)) =
      (800 * (600 - oy)) / (800 * (-s)) := by
    simp only [tOf]
    rw [hden, div_eq_div_iff hAne hAne]
    ring
  have huv : uOf ((ox, oy), (ox - c, oy - s)) ((800, 600), (0, 600)) =
      ((ox - 800) * s - (oy - 600) * c) / (800 * (-s)) := by
    simp only [uOf]
    rw [hden, div_eq_div_iff hAne hAne]
    ring
  exact crsi_ne_none_of_div _ _ _ _ _ _ hA hden htv huv (by linarith) h0 h1

lemma left_edge_q (ox oy c s : ℚ) (hc : 0 < c) (hox : 0 ≤ ox)
    (h0 : 0 < ox * s - (oy - 600) * c)
    (h1 : ox * s - (oy - 600) * c < 600 * c) :
    compute_ray_section_intersection (ox, oy) (ox - c, oy - s) ((0, 600), (0, 0)) ≠ none := by
  have hA : (0 : ℚ) < 600 * c := by linarith
  have hAne : (600 : ℚ) * c ≠ 0 := ne_of_gt hA
  have hden : denomOf ((ox, oy), (ox - c, oy - s)) ((0, 600), (0, 0)) = 600 * c := by
    simp only [denomOf]
    ring
  have htv : tOf ((ox, oy), (ox - c, oy - s)) ((0, 600), (0, 0)) =
      (600 * ox) / (600 * c) := by
    simp only [tOf]
    rw [hden, div_eq_div_iff hAne hAne]
    ring
  have huv : uOf ((ox, oy), (ox - c, oy - s)) ((0, 600), (0, 0)) =
      (ox * s - (oy - 600) * c) / (600 * c) := by
    simp only [uOf]
    rw [hden, div_eq_div_iff hAne hAne]
    ring
  exact crsi_ne_none_of_div _ _ _ _ _ _ hA hden htv huv (by linarith) h0 h1

lemma right_edge_q (ox oy c s : ℚ) (hc : c < 0) (hox : ox ≤ 800)
    (h0 : 0 < (ox - 800) * s - oy * c)
    (h1 : (ox - 800) * s - oy * c < 600 * (-c)) :
    compute_ray_section_intersection (ox, oy) (ox - c, oy - s) ((800, 0), (800, 600)) ≠ none := by
  have hA : (0 : ℚ) < 600 * (-c) := by linarith
  have hAne : (600 : ℚ) * (-c) ≠ 0 := ne_of_gt hA
  have hden : denomOf ((ox, oy), (ox - c, oy - s)) ((800, 0), (800, 600)) = 600 * (-c) := by
    simp only [denomOf]
    ring
  have htv : tOf ((ox, oy), (ox - c, oy - s)) ((800, 0), (800, 600)) =
      (600 * (800 - ox)) / (600 * (-c)) := by
    simp only [tOf]
    rw [hden, div_eq_div_iff hAne hAne]
    ring
  have huv : uOf ((ox, oy), (ox - c, oy - s)) ((800, 0), (800, 600)) =
      ((ox - 800) * s - oy * c) / (600 * (-c)) := by
    simp only [uOf]
    rw [hden, div_eq_div_iff hAne hAne]
    ring
  exact crsi_ne_none_of_div _ _ _ _ _ _ hA hden htv huv (by linarith) h0 h1

/-- A ray cast from strictly inside the screen rectangle, in any nonzero
direction, that does not pass exactly through a screen corner, qualifies
against some screen edge, so `get_closest_intersection` returns a point
whenever the segment list contains the four screen edges. -/
lemma ray_hits_screen (ox oy c s : ℚ) (lines : List Seg)
    (hox0 : 0 < ox) (hox1 : ox < 800) (hoy0 : 0 < oy) (hoy1 : oy < 600)
    (hcs : ¬(c = 0 ∧ s = 0))
    (hsub : ∀ e ∈ SCREEN_EDGES, e ∈ lines)
    (hcorner : ∀ q ∈ SCREEN_CORNERS, ¬ onRay (ox, oy) (ox - c, oy - s) q) :
    ∃ p, get_closest_intersection (ox, oy) (ox - c, oy - s) lines = some p := by
  apply gci_ne_none
  rcases lt_trichotomy s 0 with hs | hs | hs
  · by_cases h0 : 0 < (ox - 800) * s - (oy - 600) * c
    · by_cases h1 : (ox - 800) * s - (oy - 600) * c < 800 * (-s)
      · exact ⟨((800, 600), (0, 600)), hsub _ (by norm_num [SCREEN_EDGES]),
          bottom_edge_q ox oy c s hs (le_of_lt hoy1) h0 h1⟩
      · push_neg at h1
        have hxs : ox * s < 0 := mul_neg_of_pos_of_neg hox0 hs
        have hc : 0 < c := by nlinarith [hxs]
        have hcne : c ≠ 0 := ne_of_gt hc
        have hNu0 : 0 < ox * s - (oy - 600) * c := by
          rcases eq_or_lt_of_le (by linarith : (0 : ℚ) ≤ ox * s - (oy - 600) * c)
            with heq | hlt
          · exfalso
            apply hcorner (0, 600) (by norm_num [SCREEN_CORNERS])
            refine ⟨ox / c, div_nonneg (le_of_lt hox0) (le_of_lt hc), ?_⟩
            simp only [Prod.mk.injEq]
            constructor
            · field_simp
            · field_simp
              linarith [heq]
          · exact hlt
        have hNu1 : ox * s - (oy - 600) * c < 600 * c := by
          linarith [mul_pos hoy0 hc, hxs]
        exact ⟨((0, 600), (0, 0)), hsub _ (by norm_num [SCREEN_EDGES]),
          left_edge_q ox oy c s hc (le_of_lt hox0) hNu0 hNu1⟩
    · push_neg at h0
      have hps : 0 < (ox - 800) * s := mul_pos_of_neg_of_neg (by linarith) hs
      have hc : c < 0 := by nlinarith [hps]
      have hcne : c ≠ 0 := ne_of_lt hc
      have hNu0 : 0 < (ox - 800) * s - oy * c := by
        linarith [mul_neg_of_pos_of_neg hoy0 hc, hps]
      have hNu1 : (ox - 800) * s - oy * c < 600 * (-c) := by
        rcases eq_or_lt_of_le h0 with heq | hlt
        · exfalso
          apply hcorner (800, 600) (by norm_num [SCREEN_CORNERS])
          refine ⟨(800 - ox) / (-c),
            div_nonneg (by linarith) (by linarith), ?_⟩
          simp only [Prod.mk.injEq]
          constructor
          · field_simp
          · field_simp
            linarith [heq]
        · linarith
      exact ⟨((800, 0), (800, 600)), hsub _ (by norm_num [SCREEN_EDGES]),
        right_edge_q ox oy c s hc (le_of_lt hox1) hNu0 hNu1⟩
  · subst hs
    rcases lt_trichotomy c 0 with hc | hc | hc
    · have hNu0 : 0 < (ox - 800) * 0 - oy * c := by
        linarith [mul_neg_of_pos_of_neg hoy0 hc]
      have hNu1 : (ox - 800) * 0 - oy * c < 600 * (-c) := by
        linarith [mul_neg_of_neg_of_pos hc (show (0 : ℚ) < 600 - oy by linarith)]
      exact ⟨((800, 0), (800, 600)), hsub _ (by norm_num [SCREEN_EDGES]),
        right_edge_q ox oy c 0 hc (le_of_lt hox1) hNu0 hNu1⟩
    · exact absurd ⟨hc, rfl⟩ hcs
    · have hNu0 : 0 < ox * 0 - (oy - 600) * c := by
        linarith [mul_pos (show (0 : ℚ) < 600 - oy by linarith) hc]
      have hNu1 : ox * 0 - (oy - 600) * c < 600 * c := by
        linarith [mul_pos hoy0 hc]
      exact ⟨((0, 600), (0, 0)), hsub _ (by norm_num [SCREEN_EDGES]),
        left_edge_q ox oy c 0 hc (le_of_lt hox0) hNu0 hNu1⟩
  · by_cases h0 : 0 < ox * s - oy * c
    · by_cases h1 : ox * s - oy * c < 800 * s
      · exact ⟨((0, 0), (800, 0)), hsub _ (by norm_num [SCREEN_EDGES]),
          top_edge_q ox oy c s hs (le_of_lt hoy0) h0 h1⟩
      · push_neg at h1
        have hps : (ox - 800) * s < 0 := mul_neg_of_neg_of_pos (by linarith) hs
        have hc : c < 0 := by nlinarith [hps]
        have hcne : c ≠ 0 := ne_of_lt hc
        have hNu0 : 0 < (ox - 800) * s - oy * c := by
          rcases eq_or_lt_of_le (by linarith : (0 : ℚ) ≤ (ox - 800) * s - oy * c)
            with heq | hlt
          · exfalso
            apply hcorner (800, 0) (by norm_num [SCREEN_CORNERS])
            refine ⟨(800 - ox) / (-c),
              div_nonneg (by linarith) (by linarith), ?_⟩
            simp only [Prod.mk.injEq]
            constructor
            · field_simp
            · field_simp
              linarith [heq]
          · exact hlt
        have hNu1 : (ox - 800) * s - oy * c < 600 * (-c) := by
          linarith [hps, mul_neg_of_pos_of_neg (show (0 : ℚ) < 600 - oy by linarith) hc]
        exact ⟨((800, 0), (800, 600)), hsub _ (by norm_num [SCREEN_EDGES]),
          right_edge_q ox oy c s hc (le_of_lt hox1) hNu0 hNu1⟩
    · push_neg at h0
      have hxs : 0 < ox * s := mul_pos hox0 hs
      have hc : 0 < c := by nlinarith [hxs]
      have hcne : c ≠ 0 := ne_of_gt hc
      have hNu0 : 0 < ox * s - (oy - 600) * c := by
        linarith [mul_pos (show (0 : ℚ) < 600 - oy by linarith) hc]
      have hNu1 : ox * s - (oy - 600) * c < 600 * c := by
        rcases eq_or_lt_of_le h0 with heq | hlt
        · exfalso
          apply hcorner (0, 0) (by norm_num [SCREEN_CORNERS])
          refine ⟨ox / c, div_nonneg (le_of_lt hox0) (le_of_lt hc), ?_⟩
          simp only [Prod.mk.injEq]
          constructor
          · field_simp
          · field_simp
            linarith [heq]
        · linarith
      exact ⟨((0, 600), (0, 0)), hsub _ (by norm_num [SCREEN_EDGES]),
        left_edge_q ox oy c s hc (le_of_lt hox0) hNu0 hNu1⟩

/-- `p` lies on the segment `l` (parameter `r ∈ [0, 1]` of the segment's
affine parameterization, endpoints included). -/
def onSeg (p : Point) (l : Seg) : Prop :=
  ∃ r : ℚ, 0 ≤ r ∧ r ≤ 1 ∧
    p.1 = l.1.1 + r * (l.2.1 - l.1.1) ∧ p.2 = l.1.2 + r * (l.2.2 - l.1.2)

lemma gli_on_both (lines : List Seg) (p : Point) (hp : p ∈ get_lines_intersections lines) :
    ∃ l1 ∈ lines, ∃ l2 ∈ lines, ∃ t u,
      compute_line_line_intersection l1 l2 = some (p.1, p.2, t, u) ∧
        0 < t ∧ t < 1 ∧ 0 < u ∧ u < 1 ∧ onSeg p l1 ∧ onSeg p l2 := by
  rw [mem_gli_iff] at hp
  obtain ⟨l1, hl1, l2, hl2, t, u, hc, ht0, ht1, hu0, hu1⟩ := hp
  have hsys := clli_system l1 l2 p.1 p.2 t u hc
  rw [clli_eq_some_iff] at hc
  obtain ⟨hne, hx, hy, ht, hu⟩ := hc
  refine ⟨l1, hl1, l2, hl2, t, u, ?_, ht0, ht1, hu0, hu1, ?_, ?_⟩
  · rw [clli_eq_some_iff]
    exact ⟨hne, hx, hy, ht, hu⟩
  · exact ⟨t, le_of_lt ht0, le_of_lt ht1, by rw [hx, ht], by rw [hy, ht]⟩
  · refine ⟨u, le_of_lt hu0, le_of_lt hu1, ?_, ?_⟩
    · rw [hx, ← ht]
      exact hsys.1
    · rw [hy, ← ht]
      exact hsys.2

lemma get?_tail_succ (l : List Point) (i : ℕ) : l.tail.get? i = l.get? (i + 1) := by
  cases l <;> rfl

lemma map_fst_zip_tail (l : List Point) : (l.zip l.tail).map Prod.fst = l.dropLast := by
  induction l with
  | nil => rfl
  | cons p ps ih =>
    cases ps with
    | nil => rfl
    | cons q qs =>
      simp only [List.tail_cons] at ih
      simp only [List.tail_cons, List.zip_cons_cons, List.map_cons, List.dropLast_cons₂]
      rw [ih]

/-- C1 (as stated in the spec) is falsified by a ray aimed exactly at a
screen corner: from `(400, 300)` with unit direction `(4/5, 3/5)` (so the
ray passes through the corner `(0, 0)`), all four screen edges are hit
only at `u = 0` or `u = 1` or behind the origin, all rejected. -/
theorem spec_c1_counterexample :
    ((0 : ℚ) < 400 ∧ (400 : ℚ) < 800 ∧ (0 : ℚ) < 300 ∧ (300 : ℚ) < 600) ∧
    ((4 / 5 : ℚ)) ^ 2 + ((3 / 5 : ℚ)) ^ 2 = 1 ∧
    get_closest_intersection (400, 300) (400 - 4 / 5, 300 - 3 / 5) SCREEN_EDGES = none := by
  refine ⟨by norm_num, by norm_num, ?_⟩
  norm_num [get_closest_intersection, closestAux, stepOf, compute_ray_section_intersection,
    compute_line_line_intersection, denomOf, tOf, uOf, SCREEN_EDGES]

/-- C1 (amended): for every origin strictly inside the screen rectangle
and every nonzero direction offset `(c, s)` (the source uses the unit
offset `(cos θ, sin θ)`), as long as the ray does not pass exactly
through a screen corner, `get_closest_intersection` returns a point for
any segment list containing the 4 screen edges. -/
theorem spec_c1_amended (ox oy c s : ℚ) (lines : List Seg)
    (hox0 : 0 < ox) (hox1 : ox < 800) (hoy0 : 0 < oy) (hoy1 : oy < 600)
    (hcs : ¬(c = 0 ∧ s = 0))
    (hsub : ∀ e ∈ SCREEN_EDGES, e ∈ lines)
    (hcorner : ∀ q ∈ SCREEN_CORNERS, ¬ onRay (ox, oy) (ox - c, oy - s) q) :
    ∃ p, get_closest_intersection (ox, oy) (ox - c, oy - s) lines = some p :=
  ray_hits_screen ox oy c s lines hox0 hox1 hoy0 hoy1 hcs hsub hcorner

/-- C1 witness: the amended theorem applied to the origin `(400, 300)`
and the direction offset `(1, 0)` (a leftward ray hitting the left edge
at `(0, 300)`). -/
theorem spec_c1_amended_witness :
    ∃ p, get_closest_intersection (400, 300) (400 - 1, 300 - 0) SCREEN_EDGES = some p :=
  spec_c1_amended 400 300 1 0 SCREEN_EDGES (by norm_num) (by norm_num) (by norm_num)
    (by norm_num) (by norm_num) (fun e he => he)
    (by
      rintro q hq ⟨t, ht0, hpt⟩
      have hy : q.2 = 300 + t * ((300 - 0) - 300) := by rw [hpt]
      norm_num at hy
      norm_num [SCREEN_CORNERS] at hq
      rcases hq with h1 | h1 | h1 | h1 <;> rw [h1] at hy <;> norm_num at hy)

/-- C2 (confirmed): a candidate segment is rejected exactly when the
lines are parallel (zero determinant), or `u` is not strictly between
`0` and `1`, or `t < 0`; `get_closest_intersection` returns `none`
exactly when every segment is rejected, and otherwise returns the
intersection point of an accepted segment whose `t` is minimal among all
accepted candidates. -/
theorem spec_c2_closest_selection (o d : Point) :
    (∀ l : Seg, compute_ray_section_intersection o d l = none ↔
      (denomOf (o, d) l = 0 ∨
        ∃ x y t u, compute_line_line_intersection (o, d) l = some (x, y, t, u) ∧
          (¬(0 < u ∧ u < 1) ∨ t < 0))) ∧
    ∀ lines : List Seg,
      (get_closest_intersection o d lines = none ↔
        ∀ l ∈ lines, compute_ray_section_intersection o d l = none) ∧
      (∀ p, get_closest_intersection o d lines = some p →
        ∃ l ∈ lines, ∃ t, compute_ray_section_intersection o d l = some (p.1, p.2, t) ∧
          ∀ l2 ∈ lines, ∀ x y t2,
            compute_ray_section_intersection o d l2 = some (x, y, t2) → t ≤ t2) :=
  ⟨fun l => crsi_eq_none_iff o d l,
   fun lines => ⟨gci_eq_none_iff o d lines, fun p => gci_eq_some o d lines p⟩⟩

/-- C2 witness: the ray from `(0, 0)` through `(1, 0)` against the single
vertical segment `((5, -5), (5, 5))` resolves to `(5, 0)` with minimal
`t`. -/
theorem spec_c2_closest_selection_witness :
    ∃ l ∈ [(((5 : ℚ), (-5 : ℚ)), ((5 : ℚ), (5 : ℚ)))], ∃ t,
      compute_ray_section_intersection (0, 0) (1, 0) l = some (5, 0, t) ∧
        ∀ l2 ∈ [(((5 : ℚ), (-5 : ℚ)), ((5 : ℚ), (5 : ℚ)))], ∀ x y t2,
          compute_ray_section_intersection (0, 0) (1, 0) l2 = some (x, y, t2) → t ≤ t2 :=
  ((spec_c2_closest_selection (0, 0) (1, 0)).2 [((5, -5), (5, 5))]).2 (5, 0)
    (by norm_num [get_closest_intersection, closestAux, stepOf,
      compute_ray_section_intersection, compute_line_line_intersection, denomOf, tOf, uOf])

/-- C3 (confirmed): for every angle function `f` into a linear ordered
field (the source uses the transcendental
`np.arctan2(y - point[1], x - point[0])`, measured from the target point
back to the caster) and every perturbation `eps` (the source uses
`1e-10`), `cast_rays` produces a non-decreasing angle list that is a
permutation of the two angles `f p - eps`, `f p + eps` for each point
`p` of the deduplicated target set, so its length is exactly twice the
size of the target set. -/
theorem spec_c3_cast_rays {α : Type} [LinearOrderedField α] (f : Point → α) (eps : α)
    (points : List Point) :
    (cast_rays_angles f eps points).length = 2 * points.dedup.length ∧
    (cast_rays_angles f eps points).Sorted (fun a b => a ≤ b) ∧
    (cast_rays_angles f eps points).Perm
      (points.dedup.flatMap fun point => [f point - eps, f point + eps]) :=
  ⟨cra_length f eps points,
   List.sorted_insertionSort _ _,
   List.perm_insertionSort _ _⟩

/-- C4 (as stated) is falsified: the collection `Map._get_ray_targets`
passes to the casters is a list in which shared endpoints repeat; with
the 4 screen edges alone, the corner `(0, 0)` occurs twice. -/
theorem spec_c4_counterexample :
    (get_ray_targets SCREEN_EDGES).count ((0 : ℚ), (0 : ℚ)) = 2 ∧
    ¬ (get_ray_targets SCREEN_EDGES).Nodup := by
  constructor
  · norm_num [get_ray_targets, get_lines_intersections, pairInts, pairIntsRow,
      compute_line_line_intersection, denomOf, tOf, uOf, SCREEN_EDGES, List.count_cons,
      List.dedup]
  · norm_num [get_ray_targets, get_lines_intersections, pairInts, pairIntsRow,
      compute_line_line_intersection, denomOf, tOf, uOf, SCREEN_EDGES, List.dedup,
      List.nodup_cons]

/-- C4 (amended): the target collection consists of every segment
endpoint (listed once per segment end, so shared endpoints repeat)
together with the deduplicated set of pairwise intersections whose `t`
and `u` both lie strictly inside `(0, 1)`; self-pairs contribute nothing
because a line is parallel to itself. -/
theorem spec_c4_amended (lines : List Seg) :
    (∀ p : Point, p ∈ get_ray_targets lines ↔
      ((∃ l ∈ lines, p = l.1 ∨ p = l.2) ∨ p ∈ get_lines_intersections lines)) ∧
    (∀ p : Point, p ∈ get_lines_intersections lines ↔
      ∃ l1 ∈ lines, ∃ l2 ∈ lines, ∃ t u,
        compute_line_line_intersection l1 l2 = some (p.1, p.2, t, u) ∧
          0 < t ∧ t < 1 ∧ 0 < u ∧ u < 1) ∧
    (∀ l : Seg, compute_line_line_intersection l l = none) ∧
    (get_lines_intersections lines).Nodup :=
  ⟨fun p => mem_grt_iff lines p, fun p => mem_gli_iff lines p, clli_self,
   List.nodup_dedup _⟩

/-- C5 (confirmed): the kernel fails exactly when the determinant
`(x1-x2)(y3-y4) - (y1-y2)(x3-x4)` is zero, and otherwise returns
`(x, y, t, u)` with `x = x1 + t (x2-x1)`, `y = y1 + t (y2-y1)`, the
point at parameter `t` on line 1 coinciding with the point at parameter
`u` on line 2 (the exact solution of the 2×2 linear system, with `t` and
`u` not clipped to `[0, 1]`). -/
theorem spec_c5_kernel (l1 l2 : Seg) :
    (compute_line_line_intersection l1 l2 = none ↔ denomOf l1 l2 = 0) ∧
    ∀ x y t u, compute_line_line_intersection l1 l2 = some (x, y, t, u) →
      x = l1.1.1 + t * (l1.2.1 - l1.1.1) ∧ y = l1.1.2 + t * (l1.2.2 - l1.1.2) ∧
      l1.1.1 + t * (l1.2.1 - l1.1.1) = l2.1.1 + u * (l2.2.1 - l2.1.1) ∧
      l1.1.2 + t * (l1.2.2 - l1.1.2) = l2.1.2 + u * (l2.2.2 - l2.1.2) := by
  refine ⟨clli_eq_none_iff l1 l2, fun x y t u h => ?_⟩
  have hsys := clli_system l1 l2 x y t u h
  rw [clli_eq_some_iff] at h
  obtain ⟨-, hx, hy, ht, -⟩ := h
  rw [← ht] at hx hy
  exact ⟨hx, hy, hsys.1, hsys.2⟩

/-- C5 witness: the spec scenario, two diagonals of a 10×10 square
crossing at `(5, 5)` with `t = u = 1/2`. -/
theorem spec_c5_kernel_witness :
    (5 : ℚ) = 0 + 1 / 2 * (10 - 0) ∧ (5 : ℚ) = 0 + 1 / 2 * (10 - 0) ∧
    (0 : ℚ) + 1 / 2 * (10 - 0) = 0 + 1 / 2 * (10 - 0) ∧
    (0 : ℚ) + 1 / 2 * (10 - 0) = 10 + 1 / 2 * (0 - 10) :=
  (spec_c5_kernel ((0, 0), (10, 10)) ((0, 10), (10, 0))).2 5 5 (1 / 2) (1 / 2)
    (by norm_num [compute_line_line_intersection, denomOf, tOf, uOf])

/-- C6 (confirmed): swapping the argument lines returns the same
intersection point with `t` and `u` exchanged (exact arithmetic). -/
theorem spec_c6_swap_symmetry (l1 l2 : Seg) (x y t u : ℚ)
    (h : compute_line_line_intersection l1 l2 = some (x, y, t, u)) :
    compute_line_line_intersection l2 l1 = some (x, y, u, t) :=
  clli_swap l1 l2 x y t u h

/-- C6 witness: the horizontal segment `((0,0),(10,0))` against the
vertical `((2,-1),(2,3))` meets at `(2, 0)` with `t = 1/5`, `u = 1/4`;
swapping the lines swaps the parameters. -/
theorem spec_c6_swap_symmetry_witness :
    compute_line_line_intersection ((2, -1), (2, 3)) ((0, 0), (10, 0)) =
      some (2, 0, 1 / 4, 1 / 5) :=
  spec_c6_swap_symmetry ((0, 0), (10, 0)) ((2, -1), (2, 3)) 2 0 (1 / 5) (1 / 4)
    (by norm_num [compute_line_line_intersection, denomOf, tOf, uOf])

/-- C7 (confirmed): a polygon of `N > 2` points decomposes into the
`N - 1` consecutive segments `zip(line, line[1:])` (the `i`-th joins
vertex `i` to vertex `i+1`, and the segment starts followed by the last
vertex reproduce the original vertex sequence); a 2-point polygon
becomes the single segment of its two points; and the 4 screen-boundary
segments precede all polygon segments in `Map._get_lines`. -/
theorem spec_c7_decomposition :
    (∀ poly : List Point, 2 < poly.length →
      polyToSegs poly = poly.zip poly.tail ∧
      (polyToSegs poly).length = poly.length - 1 ∧
      (∀ i : ℕ, ∀ a b : Point, (polyToSegs poly).get? i = some (a, b) ↔
        (poly.get? i = some a ∧ poly.get? (i + 1) = some b)) ∧
      ∀ h2 : poly ≠ [], (polyToSegs poly).map Prod.fst ++ [poly.getLast h2] = poly) ∧
    (∀ p1 p2 : Point, polyToSegs [p1, p2] = [(p1, p2)]) ∧
    (∀ polygons : List (List Point),
      get_lines polygons = SCREEN_EDGES ++ polygons.flatMap polyToSegs) := by
  refine ⟨fun poly hlen => ?_, fun p1 p2 => rfl, fun polygons => rfl⟩
  have hzip : polyToSegs poly = poly.zip poly.tail := by
    unfold polyToSegs
    rw [if_pos hlen]
  have hlen2 : (poly.zip poly.tail).length = poly.length - 1 := by
    rw [List.length_zip, List.length_tail]
    exact min_eq_right (Nat.sub_le _ _)
  refine ⟨hzip, by rw [hzip, hlen2], fun i a b => ?_, fun h2 => ?_⟩
  · rw [hzip, List.get?_zip_eq_some]
    constructor
    · rintro ⟨ha, hb⟩
      refine ⟨ha, ?_⟩
      rwa [get?_tail_succ] at hb
    · rintro ⟨ha, hb⟩
      refine ⟨ha, ?_⟩
      rwa [get?_tail_succ]
  · rw [hzip, map_fst_zip_tail, List.dropLast_append_getLast]

/-- C7 witness: the decomposition theorem applied to a concrete 3-point
polygon. -/
theorem spec_c7_decomposition_witness :
    polyToSegs [((0 : ℚ), (0 : ℚ)), (1, 0), (2, 2)] =
      [((0 : ℚ), (0 : ℚ)), (1, 0), (2, 2)].zip [((0 : ℚ), (0 : ℚ)), (1, 0), (2, 2)].tail ∧
    (polyToSegs [((0 : ℚ), (0 : ℚ)), (1, 0), (2, 2)]).length =
      [((0 : ℚ), (0 : ℚ)), (1, 0), (2, 2)].length - 1 :=
  ⟨(spec_c7_decomposition.1 [((0 : ℚ), (0 : ℚ)), (1, 0), (2, 2)] (by norm_num)).1,
   ((spec_c7_decomposition.1 [((0 : ℚ), (0 : ℚ)), (1, 0), (2, 2)] (by norm_num)).2).1⟩

/-- C8 (as stated) is falsified: with an empty target list,
`update_triangles` raises `IndexError` at `vertices.append(vertices[0])`
although the (empty) ray bundle contains no ray whose closest
intersection is `None` (shown at a concrete instantiation of the
abstract angle parameters over `ℚ`). -/
theorem spec_c8_counterexample :
    update_triangles (fun _ => (0 : ℚ)) (fun p _ => (p.1 - 1, p.2)) 0 (400, 300)
      SCREEN_EDGES [] = .error .indexError ∧
    cast_rays_angles (fun _ => (0 : ℚ)) 0 ([] : List Point) = [] :=
  ⟨rfl, rfl⟩

/-- C8 (amended): `update_triangles` raises a fatal error if and only if
the target list is empty (`IndexError`) or some ray of the bundle
resolves to no intersection (`TypeError`); the per-segment failures are
local to `get_closest_intersection`, which is total. -/
theorem spec_c8_fatal_error_iff {α : Type} [LinearOrderedField α] (f : Point → α)
    (dirOf : Point → α → Point) (eps : α) (position : Point)
    (lines : List Seg) (targets : List Point) :
    (∃ e, update_triangles f dirOf eps position lines targets = .error e) ↔
      (targets = [] ∨
        ∃ a ∈ cast_rays_angles f eps targets,
          get_closest_intersection position (dirOf position a) lines = none) :=
  ut_error_iff f dirOf eps position lines targets

/-- C9 (confirmed): every target point of `Map._get_ray_targets` lies on
at least one segment of the list (each endpoint on its own segment, with
parameter `0` or `1`), and every strict-interior pairwise intersection
point lies on both intersecting segments (at parameters `t` and `u`,
exact arithmetic). -/
theorem spec_c9_targets_on_segments (lines : List Seg) :
    (∀ p ∈ get_ray_targets lines, ∃ l ∈ lines, onSeg p l) ∧
    (∀ p ∈ get_lines_intersections lines,
      ∃ l1 ∈ lines, ∃ l2 ∈ lines, ∃ t u,
        compute_line_line_intersection l1 l2 = some (p.1, p.2, t, u) ∧
          0 < t ∧ t < 1 ∧ 0 < u ∧ u < 1 ∧ onSeg p l1 ∧ onSeg p l2) := by
  refine ⟨fun p hp => ?_, fun p hp => gli_on_both lines p hp⟩
  rw [mem_grt_iff] at hp
  rcases hp with ⟨l, hl, hp | hp⟩ | hp
  · exact ⟨l, hl, 0, le_refl 0, by norm_num, by rw [hp]; ring, by rw [hp]; ring⟩
  · exact ⟨l, hl, 1, by norm_num, le_refl 1, by rw [hp]; ring, by rw [hp]; ring⟩
  · obtain ⟨l1, hl1, -, -, -, -, -, -, -, -, -, hon1, -⟩ := gli_on_both lines p hp
    exact ⟨l1, hl1, hon1⟩

/-- C9 witness: with the single segment `((0,0),(2,0))`, the target
point `(0, 0)` (an endpoint) lies on a segment of the list. -/
theorem spec_c9_targets_on_segments_witness :
    ∃ l ∈ [(((0 : ℚ), (0 : ℚ)), ((2 : ℚ), (0 : ℚ)))], onSeg (0, 0) l :=
  (spec_c9_targets_on_segments [((0, 0), (2, 0))]).1 (0, 0)
    (by norm_num [get_ray_targets, get_lines_intersections, pairInts, pairIntsRow,
      compute_line_line_intersection, denomOf, tOf, uOf, List.dedup])

/-- C10 (confirmed): for the empty target list, `cast_rays` produces an
empty ray bundle and `update_triangles` does not return an empty
triangle list but fails with `IndexError` when it evaluates
`vertices[0]`; a non-empty target set is therefore a precondition. -/
theorem spec_c10_empty_targets {α : Type} [LinearOrderedField α] (f : Point → α)
    (dirOf : Point → α → Point) (eps : α) (position : Point) (lines : List Seg) :
    cast_rays_angles f eps ([] : List Point) = [] ∧
    update_triangles f dirOf eps position lines [] = .error .indexError :=
  ⟨rfl, rfl⟩

end Shadow
